import Mathlib

/-!
Verification of the KnowledgeRefinery daemon's core pipeline against its
natural-language specification.

The Go source is shallowly embedded: pure functions become Lean functions,
stateful store operations become explicit state passing, machine integers
become `Nat`/`Int` with explicit reductions modulo `2^32` where overflow
matters, and fallible operations return `Option`/`Except` or carry an
explicit error flag.  Real-number (float) arithmetic of the source is
modelled over `ℚ`; the properties proved here (result counts, ordering,
state invariants, control flow) do not depend on rounding.  External
collaborators (SQLite, the LLM inference server, the process RNG) are
modelled as explicit oracle parameters, so that every code path — including
error paths — is reachable in the model.
-/

/-! ## SHA-256 (bytes modelled as `Nat < 256`, words as `Nat < 2^32`) -/

namespace SHA256

def M32 : Nat := 4294967296

/-- Rotate a 32-bit word right by `n`. -/
def rotr (n x : Nat) : Nat := ((x >>> n) ||| ((x <<< (32 - n)) % M32)) % M32

def bigSigma0 (x : Nat) : Nat := rotr 2 x ^^^ rotr 13 x ^^^ rotr 22 x

def bigSigma1 (x : Nat) : Nat := rotr 6 x ^^^ rotr 11 x ^^^ rotr 25 x

def smallSigma0 (x : Nat) : Nat := rotr 7 x ^^^ rotr 18 x ^^^ (x >>> 3)

def smallSigma1 (x : Nat) : Nat := rotr 17 x ^^^ rotr 19 x ^^^ (x >>> 10)

def ch (x y z : Nat) : Nat := (x &&& y) ^^^ ((x ^^^ 4294967295) &&& z)

def maj (x y z : Nat) : Nat := (x &&& y) ^^^ (x &&& z) ^^^ (y &&& z)

def K : List Nat :=
  [1116352408, 1899447441, 3049323471, 3921009573, 961987163,
   1508970993, 2453635748, 2870763221, 3624381080, 310598401,
   607225278, 1426881987, 1925078388, 2162078206, 2614888103,
   3248222580, 3835390401, 4022224774, 264347078, 604807628,
   770255983, 1249150122, 1555081692, 1996064986, 2554220882,
   2821834349, 2952996808, 3210313671, 3336571891, 3584528711,
   113926993, 338241895, 666307205, 773529912, 1294757372,
   1396182291, 1695183700, 1986661051, 2177026350, 2456956037,
   2730485921, 2820302411, 3259730800, 3345764771, 3516065817,
   3600352804, 4094571909, 275423344, 430227734, 506948616,
   659060556, 883997877, 958139571, 1322822218, 1537002063,
   1747873779, 1955562222, 2024104815, 2227730452, 2361852424,
   2428436474, 2756734187, 3204031479, 3329325298]

def H0 : List Nat :=
  [1779033703, 3144134277, 1013904242, 2773480762,
   1359893119, 2600822924, 528734635, 1541459225]

/-- Big-endian packing of a byte list (length a multiple of 4) into words. -/
def toWords : List Nat → List Nat
  | b0 :: b1 :: b2 :: b3 :: rest =>
      (((b0 * 256 + b1) * 256 + b2) * 256 + b3) :: toWords rest
  | _ => []

/-- One message-schedule extension step. -/
def wstep (w : List Nat) : List Nat :=
  w ++ [(smallSigma1 (w.getD (w.length - 2) 0) + w.getD (w.length - 7) 0 +
         smallSigma0 (w.getD (w.length - 15) 0) + w.getD (w.length - 16) 0) % M32]

/-- The full 64-entry message schedule from the 16 block words. -/
def fullW (w16 : List Nat) : List Nat :=
  (List.range 48).foldl (fun w _ => wstep w) w16

/-- One compression round on the (a,b,c,d,e,f,g,h) working state. -/
def round (st : Nat × Nat × Nat × Nat × Nat × Nat × Nat × Nat) (kw : Nat × Nat) :
    Nat × Nat × Nat × Nat × Nat × Nat × Nat × Nat :=
  match st, kw with
  | (a, b, c, d, e, f, g, h), (k, w) =>
    let t1 := (h + bigSigma1 e + ch e f g + k + w) % M32
    let t2 := (bigSigma0 a + maj a b c) % M32
    ((t1 + t2) % M32, a, b, c, (d + t1) % M32, e, f, g)

/-- Compress one 64-byte block into the running hash (8 words). -/
def compressBlock (hh : List Nat) (block : List Nat) : List Nat :=
  let w := fullW (toWords block)
  let init := (hh.getD 0 0, hh.getD 1 0, hh.getD 2 0, hh.getD 3 0,
               hh.getD 4 0, hh.getD 5 0, hh.getD 6 0, hh.getD 7 0)
  match (K.zip w).foldl round init with
  | (a, b, c, d, e, f, g, h) =>
    [(hh.getD 0 0 + a) % M32, (hh.getD 1 0 + b) % M32, (hh.getD 2 0 + c) % M32,
     (hh.getD 3 0 + d) % M32, (hh.getD 4 0 + e) % M32, (hh.getD 5 0 + f) % M32,
     (hh.getD 6 0 + g) % M32, (hh.getD 7 0 + h) % M32]

/-- SHA-256 padding: append 0x80, zeros to 56 mod 64, then the 64-bit
big-endian bit length. -/
def pad (msg : List Nat) : List Nat :=
  let len := msg.length
  let zeros := (119 - (len % 64)) % 64
  let lenBytes := (List.range 8).map (fun i => ((len * 8) >>> (8 * (7 - i))) % 256)
  msg ++ [128] ++ List.replicate zeros 0 ++ lenBytes

/-- Split a byte list into 64-byte blocks (structural recursion on a fuel
bound by the list length, so the kernel can evaluate it). -/
def chunks64Fuel : Nat → List Nat → List (List Nat)
  | _, [] => []
  | 0, _ :: _ => []
  | fuel + 1, a :: l => (a :: l).take 64 :: chunks64Fuel fuel ((a :: l).drop 64)

/-- Split a byte list into 64-byte blocks. -/
def chunks64 (l : List Nat) : List (List Nat) :=
  chunks64Fuel l.length l

/-- Unpack one word into 4 big-endian bytes. -/
def wordBytes (w : Nat) : List Nat :=
  [(w >>> 24) % 256, (w >>> 16) % 256, (w >>> 8) % 256, w % 256]

/-- SHA-256 of a byte sequence, as a 32-byte sequence. -/
def sha256 (msg : List Nat) : List Nat :=
  (((chunks64 (pad msg)).foldl compressBlock H0).map wordBytes).flatten

end SHA256

/-! ## Strings, UTF-8 bytes, lowercase hex (Go `%x`) -/

/-- UTF-8 encoding of one character. -/
def utf8Char (c : Char) : List Nat :=
  let n := c.toNat
  if n < 128 then [n]
  else if n < 2048 then [192 + n / 64, 128 + n % 64]
  else if n < 65536 then [224 + n / 4096, 128 + (n / 64) % 64, 128 + n % 64]
  else [240 + n / 262144, 128 + (n / 4096) % 64, 128 + (n / 64) % 64, 128 + n % 64]

/-- The UTF-8 bytes of a string (Go strings are UTF-8 byte sequences). -/
def strBytes (s : String) : List Nat :=
  (s.data.map utf8Char).flatten

def hexChar (n : Nat) : Char :=
  if n < 10 then Char.ofNat (48 + n) else Char.ofNat (87 + n)

def byteHex (b : Nat) : List Char := [hexChar (b / 16), hexChar (b % 16)]

/-- Lowercase hex of a byte sequence, Go's `fmt.Sprintf("%x", ...)`. -/
def hexOfBytes (bs : List Nat) : String :=
  String.mk (bs.map byteHex).flatten

/-- First `n` characters of a string (Go slicing `s[:n]`; the sliced strings
here are ASCII hex, where bytes and characters coincide). -/
def takeChars (n : Nat) (s : String) : String :=
  String.mk (s.data.take n)

/-! ## Chunker text normalization and chunk IDs
(source: daemon-go/internal/pipeline/chunker.go) -/

/-- Whitespace class of Go's regexp `\s`, which is `[\t\n\f\r ]`. -/
def isReSpace (c : Char) : Bool :=
  c = ' ' || c = '\t' || c = '\n' || c = '\x0c' || c = '\r'

/-- Whitespace recognized by Go's `unicode.IsSpace` (ASCII/Latin-1 part;
higher Unicode space code points do not occur in the inputs considered). -/
def isGoSpace (c : Char) : Bool :=
  c = ' ' || c = '\t' || c = '\n' || c = '\x0b' || c = '\x0c' || c = '\r' ||
  c.toNat = 133 || c.toNat = 160

/-- Go `strings.TrimSpace`. -/
def trimSpace (s : String) : String :=
  String.mk (((s.data.dropWhile isGoSpace).reverse.dropWhile isGoSpace).reverse)

/-- Go `strings.ToLower` (ASCII; the Unicode cases do not occur in the
inputs considered). -/
def lowerStr (s : String) : String :=
  String.mk (s.data.map Char.toLower)

/-- Replace every maximal run of `\s` characters by a single space:
Go `wsRE.ReplaceAllString(_, " ")` with `wsRE = \s+`.  The boolean tracks
whether the previous character was part of a whitespace run. -/
def collapseWsAux : Bool → List Char → List Char
  | _, [] => []
  | inRun, c :: rest =>
    if isReSpace c then
      if inRun then collapseWsAux true rest
      else ' ' :: collapseWsAux true rest
    else c :: collapseWsAux false rest

/-- `NormalizeText` from chunker.go: lowercase, trim, collapse whitespace. -/
def NormalizeText (text : String) : String :=
  String.mk (collapseWsAux false (trimSpace (lowerStr text)).data)

/-- `ComputeChunkID` from chunker.go: the hex SHA-256 of
`assetID ":" anchorJSON ":" hex(SHA-256(normalized text))`, truncated to
32 hex characters. -/
def ComputeChunkID (assetID anchorJSON text : String) : String :=
  let norm := NormalizeText text
  let normHash := hexOfBytes (SHA256.sha256 (strBytes norm))
  let payload := assetID ++ ":" ++ anchorJSON ++ ":" ++ normHash
  takeChars 32 (hexOfBytes (SHA256.sha256 (strBytes payload)))

/-- The chunk-ID formula as the specification words it:
`SHA-256(asset_id ∥ ":" ∥ anchor_json ∥ ":" ∥ hex(SHA-256(normalized_text)))[:32]`
with normalized text being the lowercased, trimmed text with every
whitespace run collapsed to one space. -/
def chunkIDSpec (assetID anchorJSON text : String) : String :=
  let normalized :=
    String.mk (collapseWsAux false (trimSpace (lowerStr text)).data)
  let innerHex := hexOfBytes (SHA256.sha256 (strBytes normalized))
  takeChars 32
    (hexOfBytes (SHA256.sha256 (strBytes (assetID ++ ":" ++ anchorJSON ++ ":" ++ innerHex))))

/-! ## Chunker context adaptation
(source: daemon-go/internal/pipeline/chunker.go, `AdaptToContext`) -/

namespace Chunker

/-- The chunker's size configuration (token counts are Go ints, here `Nat`;
`AdaptToContext` is only reached with a nonnegative context length). -/
structure Cfg where
  target : Nat
  min : Nat
  max : Nat
  overlap : Nat
deriving DecidableEq, Repr

/-- `AdaptToContext` from chunker.go.  `available = contextLength - 2000`
floored at 400 (Go int subtraction; `Nat` truncation agrees because any
negative value is also floored to 400).  Note the final guard: the new
values are installed only when the proposed max differs from the current
max. -/
def adaptToContext (c : Cfg) (contextLength : Nat) : Cfg :=
  let available := if contextLength - 2000 < 400 then 400 else contextLength - 2000
  let t0 := available * 6 / 10
  let newTarget := if t0 > c.target then c.target else t0
  let m0 := available * 8 / 10
  let newMax := if m0 > c.max then c.max else m0
  let n0 := newTarget * 2 / 3
  let newMin := if n0 > c.min then c.min else n0
  if newMax ≠ c.max then { c with target := newTarget, min := newMin, max := newMax }
  else c

end Chunker

/-! ## LLM client response handling
(source: daemon-go/internal/lmstudio/client.go)

The HTTP exchange itself is the external collaborator; the embedding
models the client's handling of the server's reply.  A reply is a status
code plus the decode outcome: `none` when the body fails to decode,
`some payload` otherwise.  Embedding vectors (Go `float64`) are modelled
over `ℚ`; their values pass through the client untouched. -/

namespace LMClient

/-- `Embed`'s reply handling: error on any non-200 status, error when the
body fails to decode, and otherwise one vector per decoded response item
— with no emptiness check. -/
def embedRespond (status : Nat) (decoded : Option (List (List ℚ))) :
    Except String (List (List ℚ)) :=
  if status ≠ 200 then Except.error "embed failed"
  else
    match decoded with
    | none => Except.error "decode embeddings"
    | some data => Except.ok data

/-- `EmbedSingle`: `Embed` followed by an emptiness check and projection
of the first vector. -/
def embedSingleRespond (status : Nat) (decoded : Option (List (List ℚ))) :
    Except String (List ℚ) :=
  match embedRespond status decoded with
  | Except.error e => Except.error e
  | Except.ok vecs =>
    match vecs with
    | [] => Except.error "no embedding returned"
    | v :: _ => Except.ok v

/-- Split a character list at the first occurrence of `pat`, returning the
part before and the part after (Go `strings.SplitN(s, pat, 2)`). -/
def splitFirst (pat : List Char) : List Char → Option (List Char × List Char)
  | [] => if pat.isPrefixOf ([] : List Char) then some ([], []) else none
  | c :: rest =>
    if pat.isPrefixOf (c :: rest) then some ([], (c :: rest).drop pat.length)
    else
      match splitFirst pat rest with
      | some (before, after) => some (c :: before, after)
      | none => none

/-- `Chat`'s response sanitization: drop everything up to and including a
`</think>` tag; if the text starts with `<think>` and never closes it,
return empty; otherwise pass through. -/
def sanitizeChat (text : String) : String :=
  match splitFirst "</think>".data text.data with
  | some (_, after) => trimSpace (String.mk after)
  | none =>
    if "<think>".data.isPrefixOf text.data then "" else text

/-- `Chat`'s reply handling: error on any non-200 status, error when the
body fails to decode; an empty choices list yields the empty string with
no error; otherwise the sanitized content of the first choice.  `decoded`
is the list of choice contents. -/
def chatRespond (status : Nat) (decoded : Option (List String)) :
    Except String String :=
  if status ≠ 200 then Except.error "chat failed"
  else
    match decoded with
    | none => Except.error "decode chat response"
    | some [] => Except.ok ""
    | some (c :: _) => Except.ok (sanitizeChat c)

end LMClient

/-! ## Annotator retry loop
(source: daemon-go/internal/pipeline/annotator.go, `AnnotateChunk`)

The LLM call is the collaborator: `oracle i` is the outcome of the call on
attempt `i` (`fail` = transport/LLM error, `ok r` = raw response text).
`json.Unmarshal` into the annotation shape is modelled by the parameter
`parse`; only the fields inspected by the control flow (summary, topics)
are kept.  The model returns the produced annotation data (if any), the
number of LLM calls made, and the list of backoff sleeps in seconds. -/

namespace Annotator

/-- The fields of the parsed annotation JSON that the control flow
inspects. -/
structure AnnParsed where
  summary : String
  topics : List String
deriving DecidableEq, Repr

inductive LLMReply where
  | fail
  | ok (response : String)
deriving DecidableEq

/-- Loop outcome: an early `return nil` on a JSON parse failure, or the
`parsed` value when the loop breaks or exhausts its attempts (in the
latter case `parsed` is still the Go zero value). -/
inductive LoopOut where
  | earlyNil
  | done (p : AnnParsed)
deriving DecidableEq

/-- The retry loop of `AnnotateChunk`: `remaining` attempts left, `i` the
0-based index of the current attempt.  A failed LLM call sleeps
`5 * (i + 1)` seconds and retries; a response that fails to parse returns
nil immediately; a parsed response breaks the loop. -/
def annLoop (parse : String → Option AnnParsed) (oracle : Nat → LLMReply) :
    Nat → Nat → LoopOut × Nat × List Nat
  | 0, _ => (LoopOut.done ⟨"", []⟩, 0, [])
  | remaining + 1, i =>
    match oracle i with
    | LLMReply.fail =>
      match annLoop parse oracle remaining (i + 1) with
      | (out, calls, sleeps) => (out, calls + 1, 5 * (i + 1) :: sleeps)
    | LLMReply.ok resp =>
      match parse resp with
      | none => (LoopOut.earlyNil, 1, [])
      | some p => (LoopOut.done p, 1, [])

/-- `AnnotateChunk`: run the retry loop, then give up (returning no
annotation) when the parsed object has empty summary and empty topics. -/
def annotateChunkModel (parse : String → Option AnnParsed)
    (oracle : Nat → LLMReply) (maxRetries : Nat) :
    Option AnnParsed × Nat × List Nat :=
  match annLoop parse oracle maxRetries 0 with
  | (LoopOut.earlyNil, calls, sleeps) => (none, calls, sleeps)
  | (LoopOut.done p, calls, sleeps) =>
    (if p.summary = "" ∧ p.topics = [] then none else some p, calls, sleeps)

end Annotator

/-! ## Vector store
(source: daemon-go/internal/storage/vectorstore.go)

SQLite is modelled as the list of persisted `chunk_vectors` rows; the
little-endian float32 blob round-trips bit-exactly, so a row stores its
vector directly.  Float arithmetic is over `ℚ`; the square root used only
inside normalization is modelled by an exact rational square root (its
value is irrelevant to the properties proved).  Failures of `Exec`,
`Scan` and `Commit` are oracle parameters, so error paths are explicit:
a failure rolls the transaction back to the pre-call rows. -/

namespace VectorStore

/-- Exact-on-perfect-squares rational square root standing in for
`math.Sqrt`. -/
def ratSqrt (q : ℚ) : ℚ := (Nat.sqrt q.num.toNat : ℚ) / (Nat.sqrt q.den : ℚ)

/-- A persisted / cached vector record (`VectorRecord` in the source). -/
structure VectorRecord where
  id : String
  vector : List ℚ
  text : String
  assetID : String
  assetPath : String
  evidenceAnchor : String
  topics : String
  atomType : String
  pipelineVersion : String
deriving DecidableEq, Repr

/-- Dot product (`dotProduct` in the source iterates the first vector's
indices; `zip` models the equal-length case in which it is called). -/
def dotQ (a b : List ℚ) : ℚ := ((a.zip b).map (fun p => p.1 * p.2)).sum

def normSq (v : List ℚ) : ℚ := (v.map (fun x => x * x)).sum

/-- `normalize`: scale to unit length; the zero vector maps to the zero
vector. -/
def normalizeQ (v : List ℚ) : List ℚ :=
  if normSq v = 0 then v.map (fun _ => 0)
  else v.map (fun x => x / ratSqrt (normSq v))

/-- An in-memory cache entry (`cachedVec`): id, pre-normalized vector, and
the full record. -/
structure CachedVec where
  id : String
  vector : List ℚ
  record : VectorRecord
deriving DecidableEq, Repr

/-- The cache entry built for a record by `AddVectors`/`LoadAll`. -/
def mkCached (r : VectorRecord) : CachedVec := ⟨r.id, normalizeQ r.vector, r⟩

/-- The vector store's state: persisted rows plus the in-memory cache. -/
structure VSState where
  rows : List VectorRecord
  cache : List CachedVec
deriving DecidableEq, Repr

/-- `INSERT OR REPLACE` keyed on the primary key `id`. -/
def insertOrReplace (rows : List VectorRecord) (r : VectorRecord) :
    List VectorRecord :=
  if rows.any (fun x => x.id = r.id) then
    rows.map (fun x => if x.id = r.id then r else x)
  else rows ++ [r]

/-- The `AddVectors` record loop: `failIdx` is the (0-based) iteration at
which `stmt.Exec` fails, if any.  Each successful iteration stages the row
in the transaction and appends the normalized entry to the cache; a
failure stops the loop with the error flag set (the caller rolls the
transaction back, but the cache keeps what was appended). -/
def addVectorsAux (failIdx : Option Nat) :
    List VectorRecord → Nat → List VectorRecord → List CachedVec →
    List VectorRecord × List CachedVec × Bool
  | [], _, txRows, cache => (txRows, cache, false)
  | r :: rest, i, txRows, cache =>
    if failIdx = some i then (txRows, cache, true)
    else addVectorsAux failIdx rest (i + 1) (insertOrReplace txRows r)
      (cache ++ [mkCached r])

/-- `AddVectors`: run the loop inside a transaction; on an `Exec` or
`Commit` failure the rows revert to the pre-call state while the cache
keeps every entry appended before the failure.  Returns the new state and
the error flag. -/
def AddVectors (st : VSState) (records : List VectorRecord)
    (failIdx : Option Nat) (commitFails : Bool) : VSState × Bool :=
  match addVectorsAux failIdx records 0 st.rows st.cache with
  | (_, cache, true) => ({ rows := st.rows, cache := cache }, true)
  | (txRows, cache, false) =>
    if commitFails then ({ rows := st.rows, cache := cache }, true)
    else ({ rows := txRows, cache := cache }, false)

/-- `LoadAll`: rebuild the cache from the persisted rows.  `failIdx` is
the row at which `Scan` fails, if any; a failure returns before the cache
is touched. -/
def LoadAll (st : VSState) (failIdx : Option Nat) : VSState × Bool :=
  match failIdx with
  | some i =>
    if i < st.rows.length then (st, true)
    else ({ rows := st.rows, cache := st.rows.map mkCached }, false)
  | none => ({ rows := st.rows, cache := st.rows.map mkCached }, false)

/-- `DeleteByAsset`: delete the asset's rows, then filter the cache; a
failing `DELETE` returns before the cache is touched. -/
def DeleteByAsset (st : VSState) (assetID : String) (dbFails : Bool) :
    VSState × Bool :=
  if dbFails then (st, true)
  else
    ({ rows := st.rows.filter (fun r => r.assetID ≠ assetID),
       cache := st.cache.filter (fun cv => cv.record.assetID ≠ assetID) }, false)

/-- The consistency invariant: every cache entry has a matching persisted
row (same primary key and same owning asset). -/
def cacheBacked (st : VSState) : Prop :=
  ∀ cv ∈ st.cache, ∃ r ∈ st.rows, r.id = cv.id ∧ r.assetID = cv.record.assetID

instance (st : VSState) : Decidable (cacheBacked st) := by
  unfold cacheBacked
  infer_instance

/-- A search result: the record plus its distance score. -/
structure SearchResult where
  record : VectorRecord
  distance : ℚ
deriving DecidableEq, Repr

/-- Ascending insertion by the `ℚ` key, modelling the sort of scored
entries (the spec leaves the order among equal distances unspecified). -/
def insertByKey (x : α × ℚ) : List (α × ℚ) → List (α × ℚ)
  | [] => [x]
  | y :: ys => if x.2 ≤ y.2 then x :: y :: ys else y :: insertByKey x ys

def sortByKey (l : List (α × ℚ)) : List (α × ℚ) := l.foldr insertByKey []

/-- `Search`: normalize the query, score every cached vector with
`1 - cosine`, sort ascending by distance, return the top
`min limit (cache size)` records with their distances. -/
def Search (cache : List CachedVec) (queryVec : List ℚ) (limit : Nat) :
    List SearchResult :=
  let nq := normalizeQ queryVec
  let scores := cache.map (fun cv => (cv, 1 - dotQ nq cv.vector))
  let sorted := sortByKey scores
  let n := if limit > scores.length then scores.length else limit
  (sorted.take n).map (fun p => ⟨p.1.record, p.2⟩)

end VectorStore

/-! ## Annotations store
(source: daemon-go/internal/storage/database.go, `InsertAnnotation`)

The `annotations` table is the list of its rows; only the columns the
claim's control flow touches are kept by name, `is_current` as `Bool`.
The primary-key constraint on `id` and any other statement failure are
the two failure modes; both roll the transaction back. -/

namespace AnnStore

structure AnnRow where
  id : String
  chunkID : String
  modelID : String
  isCurrent : Bool
deriving DecidableEq, Repr

/-- The transaction's first statement:
`UPDATE annotations SET is_current=0 WHERE chunk_id=? AND is_current=1`. -/
def markNonCurrent (rows : List AnnRow) (chunkID : String) : List AnnRow :=
  rows.map (fun r =>
    if r.chunkID = chunkID && r.isCurrent then { r with isCurrent := false } else r)

/-- `InsertAnnotation`: in one transaction mark the chunk's current rows
non-current, then insert the new row; the insert fails on a primary-key
collision (plain `INSERT`) or any other statement failure (`ioFail`), and
a failure rolls the whole transaction back.  Returns the resulting rows
and the error flag. -/
def insertAnnRow (rows : List AnnRow) (ann : AnnRow) (ioFail : Bool) :
    List AnnRow × Bool :=
  if ioFail || rows.any (fun r => r.id = ann.id) then (rows, true)
  else (markNonCurrent rows ann.chunkID ++ [ann], false)

/-- Number of rows for `chunkID` with `is_current = true`. -/
def countCurrent (rows : List AnnRow) (chunkID : String) : Nat :=
  (rows.filter (fun r => r.chunkID = chunkID && r.isCurrent)).length

end AnnStore

/-! ## Orchestrator embed stage
(source: unnamed orchestrator file, `runPipelineWorker`, stage 4)

Only the data the stage reads and writes is modelled: assets with their
status and chunks with their optional embedding reference.  The embedder's
effect is the set of chunk IDs whose embedding reference was written
(`UpdateChunkEmbedding(c.ID, c.ID)`); in the source those IDs are drawn
from the selected unembedded chunks.  The `10000`-row selection limits are
not modelled. -/

namespace Pipeline

inductive AssetStatus where
  | pending
  | extracted
  | chunked
  | embedded
  | annotated
  | errored
deriving DecidableEq, Repr

structure AssetRec where
  id : String
  status : AssetStatus
deriving DecidableEq, Repr

structure ChunkRec where
  id : String
  assetID : String
  embeddingID : Option String
deriving DecidableEq, Repr

structure PipeState where
  assets : List AssetRec
  chunks : List ChunkRec
deriving DecidableEq, Repr

/-- `allEmbedded` check of the promotion loop: every chunk of the asset
carries an embedding reference. -/
def allChunksEmbedded (chunks : List ChunkRec) (assetID : String) : Bool :=
  chunks.all (fun c => c.assetID ≠ assetID || c.embeddingID.isSome)

/-- Stage 4 of `runPipelineWorker`: select the chunks without embeddings;
if there are none, do nothing at all.  Otherwise run the embedder (writing
an embedding reference for each id in `embeddedIDs`), then promote every
chunked asset whose chunks are now all embedded. -/
def embedStage (st : PipeState) (embeddedIDs : List String) : PipeState :=
  let unembedded := st.chunks.filter (fun c => c.embeddingID.isNone)
  if unembedded.isEmpty then st
  else
    let chunks' := st.chunks.map (fun c =>
      if embeddedIDs.contains c.id then { c with embeddingID := some c.id } else c)
    let assets' := st.assets.map (fun a =>
      if a.status = AssetStatus.chunked && allChunksEmbedded chunks' a.id then
        { a with status := AssetStatus.embedded }
      else a)
    { assets := assets', chunks := chunks' }

end Pipeline

/-! ## k-means and the concept builder
(source: unnamed mathutil file `KMeans`; unnamed conceptualizer file,
`BuildConcepts`)

Float64 arithmetic is over `ℚ`.  The process RNG is an oracle: `intn i`
and `float i` are the draws consumed by init iteration `i` (the draw for
the first centroid is `intn 0`).  The LLM labeling path (with its own
retry loop) is the `labeler` parameter; the claim does not constrain
labels. -/

namespace MathUtil

def sqDist (a b : List ℚ) : ℚ :=
  ((a.zip b).map (fun p => (p.1 - p.2) * (p.1 - p.2))).sum

/-- RNG draws consumed by k-means++ initialization. -/
structure RandStream where
  intn : Nat → Nat
  float : Nat → ℚ

/-- Index of the closest centroid: first index wins ties, strict
improvement required (the assignment loop of `KMeans`). -/
def closestIdxAux (v : List ℚ) : List (List ℚ) → Nat → Nat → ℚ → Nat
  | [], _, best, _ => best
  | c :: cs, i, best, bestD =>
    if sqDist v c < bestD then closestIdxAux v cs (i + 1) i (sqDist v c)
    else closestIdxAux v cs (i + 1) best bestD

def closestIdx (v : List ℚ) : List (List ℚ) → Nat
  | [] => 0
  | c :: cs => closestIdxAux v cs 1 0 (sqDist v c)

def assign (vectors centroids : List (List ℚ)) : List Nat :=
  vectors.map (fun v => closestIdx v centroids)

/-- The vectors assigned to cluster `idx` (pairs each element with its
label). -/
def membersOf (labels : List Nat) (idx : Nat) (xs : List α) : List α :=
  ((xs.zip labels).filter (fun p => p.2 = idx)).map (fun p => p.1)

def addVec (a b : List ℚ) : List ℚ := (a.zip b).map (fun p => p.1 + p.2)

def vecSum (dim : Nat) (vs : List (List ℚ)) : List ℚ :=
  vs.foldl addVec (List.replicate dim 0)

/-- Centroid update: mean of the members; clusters with no members keep
their old centroid. -/
def updateCentroids (vectors : List (List ℚ)) (labels : List Nat)
    (centroids : List (List ℚ)) (dim : Nat) : List (List ℚ) :=
  (List.range centroids.length).map (fun ci =>
    let mem := membersOf labels ci vectors
    if mem.length > 0 then
      (vecSum dim mem).map (fun x => x / (mem.length : ℚ))
    else centroids.getD ci [])

/-- Lloyd iteration: assign, stop when no label changed, else update
centroids and recurse; stop anyway when the iteration budget runs out. -/
def lloyd (vectors : List (List ℚ)) (dim : Nat) :
    Nat → List Nat → List (List ℚ) → List Nat × List (List ℚ)
  | 0, labels, centroids => (labels, centroids)
  | fuel + 1, labels, centroids =>
    let newLabels := assign vectors centroids
    if newLabels = labels then (labels, centroids)
    else lloyd vectors dim fuel newLabels
      (updateCentroids vectors newLabels centroids dim)

/-- Minimum squared distance to any already-chosen centroid (the
`math.MaxFloat64` seed is never the minimum once a centroid exists). -/
def minDistToAny (v : List ℚ) : List (List ℚ) → ℚ
  | [] => 0
  | c :: cs => cs.foldl (fun m c' => min m (sqDist v c')) (sqDist v c)

/-- Weighted random selection: first index at which the running sum of
weights reaches the threshold; 0 if never reached. -/
def firstCumAux : List ℚ → ℚ → ℚ → Nat → Nat
  | [], _, _, _ => 0
  | d :: ds, acc, thr, j =>
    if acc + d ≥ thr then j else firstCumAux ds (acc + d) thr (j + 1)

def firstCum (ds : List ℚ) (thr : ℚ) : Nat := firstCumAux ds 0 thr 0

/-- k-means++ initialization: seed uniformly, then each further centroid
by squared-distance-weighted selection; when every distance is zero, fall
back to a uniform draw. -/
def kppInit (oracle : RandStream) (vectors : List (List ℚ)) (n k : Nat) :
    List (List ℚ) :=
  let c0 := vectors.getD (oracle.intn 0 % n) []
  (List.range (k - 1)).foldl (fun cs i' =>
    let i := i' + 1
    let dists := vectors.map (fun v => minDistToAny v cs)
    let total := dists.sum
    if total = 0 then cs ++ [vectors.getD (oracle.intn i % n) []]
    else cs ++ [vectors.getD (firstCum dists (oracle.float i * total)) []]) [c0]

/-- `KMeans(vectors, k, maxIter)`: empty input yields nothing; with
`n ≤ k` every vector is its own cluster; otherwise k-means++ then Lloyd. -/
def kmeans (oracle : RandStream) (vectors : List (List ℚ)) (k maxIter : Nat) :
    List Nat × List (List ℚ) :=
  let n := vectors.length
  if n = 0 then ([], [])
  else if n ≤ k then (List.range n, vectors)
  else
    let dim := (vectors.headD []).length
    lloyd vectors dim maxIter (List.replicate n 0) (kppInit oracle vectors n k)

end MathUtil

namespace Conceptualizer

structure ConceptNode where
  id : String
  level : Nat
  label : String
  description : String
  exemplarIDs : List String
  version : String
deriving DecidableEq, Repr

structure GraphEdge where
  id : String
  sourceID : String
  targetID : String
  edgeType : String
  weight : ℚ
  version : String
deriving DecidableEq, Repr

/-- The deterministic concept-node ID:
`SHA-256("concept:" level ":" clusterIdx ":" version)[:32]`. -/
def conceptIdOf (level clusterIdx : Nat) (version : String) : String :=
  takeChars 32 (hexOfBytes (SHA256.sha256 (strBytes
    ("concept:" ++ Nat.repr level ++ ":" ++ Nat.repr clusterIdx ++ ":" ++ version))))

/-- The deterministic `concept_member` edge ID:
`SHA-256("edge:" conceptID ":" chunkID)[:32]`. -/
def memberEdgeIdOf (conceptID chunkID : String) : String :=
  takeChars 32 (hexOfBytes (SHA256.sha256 (strBytes
    ("edge:" ++ conceptID ++ ":" ++ chunkID))))

/-- `closestToCentroid`: indices of the (up to) `k` members closest to the
centroid, ascending by squared distance. -/
def closestToCentroid (vecs : List (List ℚ)) (centroid : List ℚ) (k : Nat) :
    List Nat :=
  let scored := (List.range vecs.length).map
    (fun i => (i, MathUtil.sqDist (vecs.getD i []) centroid))
  let sorted := VectorStore.sortByKey scored
  let n := if k > sorted.length then sorted.length else k
  (sorted.take n).map (fun p => p.1)

/-- `effectiveK`: `clamp(n/3, 2, 20)`, overridden by an explicit cluster
count, then capped at `n` (and floored at 1). -/
def effectiveK (n : Nat) (kOverride : Option Nat) : Nat :=
  let k1 := n / 3
  let k2 := if k1 < 2 then 2 else k1
  let k3 := if k2 > 20 then 20 else k2
  let k4 := match kOverride with | some v => v | none => k3
  if n < k4 then (if n < 1 then 1 else n) else k4

/-- The concept node persisted for a (non-empty) cluster: deterministic
ID, the requested level, the LLM label and description, and the exemplar
chunk IDs closest to the centroid. -/
def mkNodeOf (labeler : List String → List Nat → String × String)
    (level : Nat) (version : String) (ids texts : List String)
    (vectors : List (List ℚ)) (labels : List Nat)
    (centroids : List (List ℚ)) (clusterIdx : Nat) : ConceptNode :=
  let memberIDs := MathUtil.membersOf labels clusterIdx ids
  let memberTexts := MathUtil.membersOf labels clusterIdx texts
  let memberVecs := MathUtil.membersOf labels clusterIdx vectors
  let cid := conceptIdOf level clusterIdx version
  let exemplarIdx := closestToCentroid memberVecs (centroids.getD clusterIdx []) 3
  let exemplarIDs := exemplarIdx.map (fun i => memberIDs.getD i "")
  let labelDesc := labeler memberTexts exemplarIdx
  ⟨cid, level, labelDesc.1, labelDesc.2, exemplarIDs, version⟩

/-- The `concept_member` edges persisted for a cluster: one edge of
weight 1 from the concept node to each member chunk. -/
def mkEdgesOf (level : Nat) (version : String) (ids : List String)
    (labels : List Nat) (clusterIdx : Nat) : List GraphEdge :=
  (MathUtil.membersOf labels clusterIdx ids).map (fun chunkID =>
    ⟨memberEdgeIdOf (conceptIdOf level clusterIdx version) chunkID,
      conceptIdOf level clusterIdx version, chunkID, "concept_member", 1, version⟩)

/-- The body of `BuildConcepts`'s per-cluster loop: a cluster with no
members is skipped; otherwise its node and member edges are persisted. -/
def clusterOut (labeler : List String → List Nat → String × String)
    (level : Nat) (version : String) (ids texts : List String)
    (vectors : List (List ℚ)) (labels : List Nat)
    (centroids : List (List ℚ)) (clusterIdx : Nat) :
    Option (ConceptNode × List GraphEdge) :=
  if (MathUtil.membersOf labels clusterIdx ids).length = 0 then none
  else
    some (mkNodeOf labeler level version ids texts vectors labels centroids clusterIdx,
      mkEdgesOf level version ids labels clusterIdx)

/-- `GetAllVectors` projections of the cache. -/
def cacheIds (cache : List VectorStore.CachedVec) : List String :=
  cache.map (fun cv => cv.id)

def cacheVectors (cache : List VectorStore.CachedVec) : List (List ℚ) :=
  cache.map (fun cv => cv.record.vector)

def cacheTexts (cache : List VectorStore.CachedVec) : List String :=
  cache.map (fun cv => cv.record.text)

/-- The labels produced by the k-means call inside `BuildConcepts`. -/
def clusterLabels (oracle : MathUtil.RandStream)
    (cache : List VectorStore.CachedVec) (kOverride : Option Nat) : List Nat :=
  (MathUtil.kmeans oracle (cacheVectors cache)
    (effectiveK (cacheIds cache).length kOverride) 50).1

/-- `BuildConcepts`: pull ids/vectors/texts from the cache, cluster with
k-means, then for each cluster with at least one member persist one
concept node with the deterministic ID and one `concept_member` edge per
member chunk; clusters with no members are skipped.  Returns the persisted
nodes and edges. -/
def buildConcepts (labeler : List String → List Nat → String × String)
    (oracle : MathUtil.RandStream) (cache : List VectorStore.CachedVec)
    (level : Nat) (kOverride : Option Nat) (version : String) :
    List ConceptNode × List GraphEdge :=
  let ids := cacheIds cache
  let vectors := cacheVectors cache
  let texts := cacheTexts cache
  if ids.length = 0 then ([], [])
  else
    let k := effectiveK ids.length kOverride
    let labelsCentroids := MathUtil.kmeans oracle vectors k 50
    let perCluster := (List.range k).filterMap
      (clusterOut labeler level version ids texts vectors labelsCentroids.1
        labelsCentroids.2)
    (perCluster.map (fun p => p.1), (perCluster.map (fun p => p.2)).flatten)

end Conceptualizer


/-! # Helper lemmas -/

section AnnLoopLemmas

open Annotator

/-- If every attempt up to the budget fails at the transport level, the
loop exhausts its attempts, sleeping `5·(attempt+1)` after each one, and
leaves the zero-value parse result. -/
theorem annLoop_all_fail (parse : String → Option AnnParsed)
    (oracle : Nat → LLMReply) :
    ∀ (r i : Nat), (∀ t, t < r → oracle (i + t) = LLMReply.fail) →
      annLoop parse oracle r i =
        (LoopOut.done ⟨"", []⟩, r, (List.range r).map (fun t => 5 * (i + t + 1))) := by
  intro r
  induction r with
  | zero => intro i _; rfl
  | succ r ih =>
    intro i h
    have h0 : oracle i = LLMReply.fail := by
      have := h 0 (Nat.succ_pos r)
      simpa using this
    have hrest : ∀ t, t < r → oracle (i + 1 + t) = LLMReply.fail := by
      intro t ht
      have := h (t + 1) (by omega)
      simpa [Nat.add_assoc, Nat.add_comm 1 t] using this
    have hrec := ih (i + 1) hrest
    simp only [annLoop, h0, hrec]
    rw [List.range_succ_eq_map]
    simp only [List.map_cons, List.map_map, Prod.mk.injEq, true_and, Nat.add_zero,
      List.cons.injEq]
    apply List.map_congr_left
    intro t _
    simp only [Function.comp]
    omega

/-- If the first `j` attempts fail at the transport level and attempt `j`
returns a response, the loop stops at attempt `j` having made `j + 1`
calls and slept after each failure; the outcome is determined by parsing
that response. -/
theorem annLoop_first_ok (parse : String → Option AnnParsed)
    (oracle : Nat → LLMReply) :
    ∀ (j r i : Nat) (resp : String), j < r →
      (∀ t, t < j → oracle (i + t) = LLMReply.fail) →
      oracle (i + j) = LLMReply.ok resp →
      annLoop parse oracle r i =
        ((match parse resp with
          | none => LoopOut.earlyNil
          | some p => LoopOut.done p), j + 1,
          (List.range j).map (fun t => 5 * (i + t + 1))) := by
  intro j
  induction j with
  | zero =>
    intro r i resp hr _ hok
    obtain ⟨r', rfl⟩ : ∃ r', r = r' + 1 := ⟨r - 1, by omega⟩
    have hok' : oracle i = LLMReply.ok resp := by simpa using hok
    simp only [annLoop, hok']
    cases hp : parse resp <;> simp [hp]
  | succ j ih =>
    intro r i resp hr hfail hok
    obtain ⟨r', rfl⟩ : ∃ r', r = r' + 1 := ⟨r - 1, by omega⟩
    have h0 : oracle i = LLMReply.fail := by
      have := hfail 0 (Nat.succ_pos j)
      simpa using this
    have hfail' : ∀ t, t < j → oracle (i + 1 + t) = LLMReply.fail := by
      intro t ht
      have := hfail (t + 1) (by omega)
      simpa [Nat.add_assoc, Nat.add_comm 1 t] using this
    have hok' : oracle (i + 1 + j) = LLMReply.ok resp := by
      have : i + 1 + j = i + (j + 1) := by omega
      rw [this]; exact hok
    have hrec := ih r' (i + 1) resp (by omega) hfail' hok'
    simp only [annLoop, h0, hrec]
    rw [List.range_succ_eq_map]
    simp only [List.map_cons, List.map_map, Prod.mk.injEq, true_and, Nat.add_zero,
      List.cons.injEq]
    apply List.map_congr_left
    intro t _
    simp only [Function.comp]
    omega

end AnnLoopLemmas

section SortLemmas

open VectorStore

theorem length_insertByKey (x : α × ℚ) (l : List (α × ℚ)) :
    (insertByKey x l).length = l.length + 1 := by
  induction l with
  | nil => rfl
  | cons y ys ih =>
    simp only [insertByKey]
    split_ifs <;> simp [ih]

theorem length_sortByKey (l : List (α × ℚ)) :
    (sortByKey l).length = l.length := by
  induction l with
  | nil => rfl
  | cons y ys ih =>
    show (insertByKey y (sortByKey ys)).length = ys.length + 1
    rw [length_insertByKey, ih]

theorem mem_insertByKey {y x : α × ℚ} {l : List (α × ℚ)}
    (hmem : y ∈ insertByKey x l) : y = x ∨ y ∈ l := by
  induction l with
  | nil => simpa [insertByKey] using hmem
  | cons z zs ih =>
    simp only [insertByKey] at hmem
    split_ifs at hmem with hle
    · rcases List.mem_cons.mp hmem with h | h
      · exact Or.inl h
      · exact Or.inr h
    · rcases List.mem_cons.mp hmem with h | h
      · exact Or.inr (by simp [h])
      · rcases ih h with h' | h'
        · exact Or.inl h'
        · exact Or.inr (by simp [h'])

theorem mem_sortByKey {y : α × ℚ} {l : List (α × ℚ)}
    (hmem : y ∈ sortByKey l) : y ∈ l := by
  induction l with
  | nil => simp [sortByKey] at hmem
  | cons z zs ih =>
    have h' : y ∈ insertByKey z (sortByKey zs) := hmem
    rcases mem_insertByKey h' with h'' | h''
    · simp [h'']
    · simp [ih h'']

theorem pairwise_insertByKey (x : α × ℚ) (l : List (α × ℚ))
    (h : l.Pairwise (fun a b => a.2 ≤ b.2)) :
    (insertByKey x l).Pairwise (fun a b => a.2 ≤ b.2) := by
  induction l with
  | nil => simp [insertByKey]
  | cons y ys ih =>
    rw [List.pairwise_cons] at h
    obtain ⟨hy, hys⟩ := h
    simp only [insertByKey]
    split_ifs with hle
    · refine List.Pairwise.cons ?_ (List.Pairwise.cons hy hys)
      intro z hz
      rcases List.mem_cons.mp hz with rfl | hz'
      · exact hle
      · exact le_trans hle (hy z hz')
    · refine List.Pairwise.cons ?_ (ih hys)
      intro z hz
      rcases mem_insertByKey hz with rfl | hz'
      · exact le_of_not_le hle
      · exact hy z hz'

theorem pairwise_sortByKey (l : List (α × ℚ)) :
    (sortByKey l).Pairwise (fun a b => a.2 ≤ b.2) := by
  induction l with
  | nil => simp [sortByKey]
  | cons y ys ih => exact pairwise_insertByKey y (sortByKey ys) ih

end SortLemmas

section AnnStoreLemmas

open AnnStore

theorem countCurrent_markNonCurrent_self (rows : List AnnRow) (c : String) :
    countCurrent (markNonCurrent rows c) c = 0 := by
  induction rows with
  | nil => rfl
  | cons r rs ih =>
    by_cases h1 : r.chunkID = c <;> by_cases h2 : r.isCurrent = true <;>
      simp [markNonCurrent, countCurrent, List.filter_cons, h1, h2] at ih ⊢ <;>
      simpa [markNonCurrent, countCurrent] using ih

theorem countCurrent_markNonCurrent_ne (rows : List AnnRow) {c c' : String}
    (h : c' ≠ c) :
    countCurrent (markNonCurrent rows c) c' = countCurrent rows c' := by
  induction rows with
  | nil => rfl
  | cons r rs ih =>
    by_cases h1 : r.chunkID = c <;> by_cases h2 : r.isCurrent = true <;>
      by_cases h3 : r.chunkID = c' <;>
      simp_all [markNonCurrent, countCurrent, List.filter_cons]

theorem countCurrent_append (l1 l2 : List AnnRow) (c : String) :
    countCurrent (l1 ++ l2) c = countCurrent l1 c + countCurrent l2 c := by
  simp [countCurrent, List.filter_append]

theorem countCurrent_singleton (ann : AnnRow) (c : String) :
    countCurrent [ann] c = if ann.chunkID = c ∧ ann.isCurrent = true then 1 else 0 := by
  by_cases h1 : ann.chunkID = c <;> by_cases h2 : ann.isCurrent = true <;>
    simp [countCurrent, List.filter_cons, h1, h2]

end AnnStoreLemmas

section VectorStoreLemmas

open VectorStore

theorem self_mem_insertOrReplace (rows : List VectorRecord) (r : VectorRecord) :
    r ∈ insertOrReplace rows r := by
  unfold insertOrReplace
  split_ifs with hany
  · obtain ⟨x, hx, hxid⟩ := List.any_eq_true.mp hany
    exact List.mem_map.mpr ⟨x, hx, by simp [of_decide_eq_true hxid]⟩
  · simp

theorem mem_insertOrReplace_cases {y : VectorRecord} {rows : List VectorRecord}
    {r : VectorRecord} (h : y ∈ insertOrReplace rows r) : y = r ∨ y ∈ rows := by
  unfold insertOrReplace at h
  split_ifs at h with hany
  · obtain ⟨x, hx, hxy⟩ := List.mem_map.mp h
    by_cases hid : x.id = r.id
    · rw [if_pos hid] at hxy
      exact Or.inl hxy.symm
    · rw [if_neg hid] at hxy
      exact Or.inr (hxy ▸ hx)
  · rcases List.mem_append.mp h with h' | h'
    · exact Or.inr h'
    · exact Or.inl (by simpa using h')

theorem exists_in_insertOrReplace {rows : List VectorRecord} {r x : VectorRecord}
    (hx : x ∈ rows) (hagree : x.id = r.id → x.assetID = r.assetID) :
    ∃ y ∈ insertOrReplace rows r, y.id = x.id ∧ y.assetID = x.assetID := by
  by_cases hid : x.id = r.id
  · exact ⟨r, self_mem_insertOrReplace rows r, hid.symm, (hagree hid).symm⟩
  · refine ⟨x, ?_, rfl, rfl⟩
    unfold insertOrReplace
    split_ifs with hany
    · exact List.mem_map.mpr ⟨x, hx, by simp [hid]⟩
    · exact List.mem_append.mpr (Or.inl hx)

/-- The record loop of `AddVectors` always leaves the cache equal to the
incoming cache extended by the normalized entries of a prefix of the
batch. -/
theorem addVectorsAux_cache_shape (failIdx : Option Nat) :
    ∀ (records : List VectorRecord) (i : Nat) (txRows : List VectorRecord)
      (cache : List CachedVec),
      ∃ k ≤ records.length,
        (addVectorsAux failIdx records i txRows cache).2.1 =
          cache ++ (records.take k).map mkCached := by
  intro records
  induction records with
  | nil => intro i txRows cache; exact ⟨0, by simp, by simp [addVectorsAux]⟩
  | cons r rest ih =>
    intro i txRows cache
    simp only [addVectorsAux]
    split_ifs with hf
    · exact ⟨0, by simp, by simp⟩
    · obtain ⟨k, hk, hshape⟩ := ih (i + 1) (insertOrReplace txRows r) (cache ++ [mkCached r])
      refine ⟨k + 1, by simpa using hk, ?_⟩
      rw [hshape]
      simp [List.take_succ_cons]

/-- The record loop of `AddVectors` preserves cache-row consistency when
it completes without an `Exec` failure, provided records agree on the
owning asset with any row or record sharing their id. -/
theorem addVectorsAux_ok_backed (failIdx : Option Nat) :
    ∀ (records : List VectorRecord) (i : Nat) (txRows : List VectorRecord)
      (cache : List CachedVec),
      (∀ cv ∈ cache, ∃ r ∈ txRows, r.id = cv.id ∧ r.assetID = cv.record.assetID) →
      (∀ r ∈ records, ∀ x ∈ txRows, x.id = r.id → x.assetID = r.assetID) →
      (∀ r ∈ records, ∀ x ∈ records, x.id = r.id → x.assetID = r.assetID) →
      (addVectorsAux failIdx records i txRows cache).2.2 = false →
      ∀ cv ∈ (addVectorsAux failIdx records i txRows cache).2.1,
        ∃ r ∈ (addVectorsAux failIdx records i txRows cache).1,
          r.id = cv.id ∧ r.assetID = cv.record.assetID := by
  intro records
  induction records with
  | nil =>
    intro i txRows cache hinv _ _ _ cv hcv
    exact hinv cv hcv
  | cons r rest ih =>
    intro i txRows cache hinv hagree hagree2 hok
    simp only [addVectorsAux] at hok ⊢
    split_ifs at hok ⊢ with hf
    have hinv' : ∀ cv ∈ cache ++ [mkCached r],
        ∃ y ∈ insertOrReplace txRows r, y.id = cv.id ∧ y.assetID = cv.record.assetID := by
      intro cv hcv
      rcases List.mem_append.mp hcv with hcv' | hcv'
      · obtain ⟨x, hx, hxid, hxasset⟩ := hinv cv hcv'
        obtain ⟨y, hy, hyid, hyasset⟩ := exists_in_insertOrReplace hx
          (fun hxr => hagree r (by simp) x hx hxr)
        exact ⟨y, hy, hyid.trans hxid, hyasset.trans hxasset⟩
      · have : cv = mkCached r := by simpa using hcv'
        subst this
        exact ⟨r, self_mem_insertOrReplace txRows r, rfl, rfl⟩
    have hagree' : ∀ rr ∈ rest, ∀ x ∈ insertOrReplace txRows r,
        x.id = rr.id → x.assetID = rr.assetID := by
      intro rr hrr x hx hid
      rcases mem_insertOrReplace_cases hx with rfl | hx'
      · exact hagree2 rr (by simp [hrr]) x (by simp) hid
      · exact hagree rr (by simp [hrr]) x hx' hid
    have hagree2' : ∀ rr ∈ rest, ∀ x ∈ rest, x.id = rr.id → x.assetID = rr.assetID := by
      intro rr hrr x hx hid
      exact hagree2 rr (by simp [hrr]) x (by simp [hx]) hid
    exact ih (i + 1) (insertOrReplace txRows r) (cache ++ [mkCached r])
      hinv' hagree' hagree2' hok

end VectorStoreLemmas

section FilterMapLemmas

theorem length_filterMap_eq_length_filter (l : List α) (g : α → Option β)
    (p : α → Bool) (h : ∀ x ∈ l, (g x).isSome = p x) :
    (l.filterMap g).length = (l.filter p).length := by
  induction l with
  | nil => rfl
  | cons a l ih =>
    have ha := h a (by simp)
    have hrest : ∀ x ∈ l, (g x).isSome = p x := fun x hx => h x (by simp [hx])
    cases hg : g a with
    | none =>
      have hpa : p a = false := by rw [← ha, hg]; rfl
      simp [List.filterMap_cons, List.filter_cons, hg, hpa, ih hrest]
    | some b =>
      have hpa : p a = true := by rw [← ha, hg]; rfl
      simp [List.filterMap_cons, List.filter_cons, hg, hpa, ih hrest]

end FilterMapLemmas

/-! # Claims -/

set_option maxRecDepth 200000 in
/-- Claim C7: `ComputeChunkID` returns
`hex(SHA-256(asset_id ":" anchor_json ":" hex(SHA-256(normalized_text))))[:32]`
with the text lowercased, trimmed and whitespace-collapsed; and on the
concrete inputs `asset_id = "abc"`, the anchor JSON for `"abc"`, and text
`"Hello, world."`, the ID equals the externally computed
`sha256("abc:" ++ anchor_json ++ ":" ++ hex(sha256("hello, world.")))[:32]`
byte for byte. -/
theorem claim_C7 :
    ComputeChunkID "abc" "\x7b\"asset_id\":\"abc\"\x7d" "Hello, world." =
      "a4e117850bd04564621fdf03afd3a6fa" ∧
    ∀ assetID anchorJSON text,
      ComputeChunkID assetID anchorJSON text = chunkIDSpec assetID anchorJSON text := by
  constructor
  · decide
  · intro assetID anchorJSON text
    rfl

/-- Claim C10: when the chat-completions response decodes with an empty
choices list, `Chat` returns the empty string with no error — the same
result as a decoded response whose first choice has empty content, so a
zero-choice reply is indistinguishable from empty model output and is
never surfaced as an error. -/
theorem claim_C10 :
    LMClient.chatRespond 200 (some []) = Except.ok "" ∧
    LMClient.chatRespond 200 (some [""]) = Except.ok "" := by
  constructor
  · rfl
  · rfl

/-- Claim C5 counterexample: the claim says `Embed` returns an error when
the decoded response contains an empty list of embeddings; on a 200
response decoding to an empty list, the code returns the empty list with
no error (the emptiness check lives only in `EmbedSingle`). -/
theorem claim_C5_cex :
    LMClient.embedRespond 200 (some []) = Except.ok [] := by
  rfl

/-- Claim C5 (amended): `Embed` returns an error on any non-200 status
and on a decode failure; a decoded response is returned as-is — one
vector per decoded item, in response order (hence one per input when the
server honors its contract) — so an empty decoded list yields an empty
result with no error, and the emptiness check is layered in
`EmbedSingle`. -/
theorem claim_C5_amended :
    ∀ (status : Nat) (decoded : Option (List (List ℚ))),
      (status ≠ 200 → ∃ e, LMClient.embedRespond status decoded = Except.error e) ∧
      (decoded = none → ∃ e, LMClient.embedRespond status decoded = Except.error e) ∧
      (∀ data, status = 200 → decoded = some data →
        LMClient.embedRespond status decoded = Except.ok data) ∧
      LMClient.embedSingleRespond 200 (some []) =
        Except.error "no embedding returned" := by
  intro status decoded
  refine ⟨?_, ?_, ?_, rfl⟩
  · intro h
    simp [LMClient.embedRespond, h]
  · intro h
    subst h
    by_cases hs : status = 200 <;> simp [LMClient.embedRespond, hs]
  · intro data hs hd
    subst hs; subst hd
    rfl

/-- Claim C5 witness: the amended theorem applied at a failing status, a
decode failure, and a successful two-vector response. -/
theorem claim_C5_witness :
    (∃ e, LMClient.embedRespond 500 (some [[1]]) = Except.error e) ∧
    (∃ e, LMClient.embedRespond 200 none = Except.error e) ∧
    LMClient.embedRespond 200 (some [[1], [2]]) = Except.ok [[1], [2]] := by
  refine ⟨(claim_C5_amended 500 (some [[1]])).1 (by decide),
    (claim_C5_amended 200 none).2.1 rfl,
    (claim_C5_amended 200 (some [[1], [2]])).2.2.1 [[1], [2]] rfl rfl⟩

/-- Claim C4 counterexample: with configured (target, min, max, overlap)
= (1000, 50, 800, 50) and context 3000, available = 1000, so the claimed
adapted target is min(1000, 600) = 600; but the proposed max
min(800, 800) equals the configured max, so `AdaptToContext` installs
nothing and the target stays 1000 — the values are not tightened
independently. -/
theorem claim_C4_cex :
    Chunker.adaptToContext ⟨1000, 50, 800, 50⟩ 3000 = ⟨1000, 50, 800, 50⟩ ∧
    min 1000 (max (3000 - 2000) 400 * 6 / 10) = 600 := by
  decide

/-- Claim C4 (amended): with available = max(ctx − 2000, 400), proposed
target = min(configured target, 60% of available), proposed max =
min(configured max, 80% of available), proposed min = min(configured min,
2/3 of the proposed target): when the proposed max differs from the
current max all three values are installed together, and when it equals
the current max nothing changes; in all cases no value is ever
enlarged. -/
theorem claim_C4_amended :
    ∀ (c : Chunker.Cfg) (ctx : Nat),
      (min (max (ctx - 2000) 400 * 8 / 10) c.max ≠ c.max →
        Chunker.adaptToContext c ctx =
          { target := min (max (ctx - 2000) 400 * 6 / 10) c.target,
            min := min (min (max (ctx - 2000) 400 * 6 / 10) c.target * 2 / 3) c.min,
            max := min (max (ctx - 2000) 400 * 8 / 10) c.max,
            overlap := c.overlap }) ∧
      (min (max (ctx - 2000) 400 * 8 / 10) c.max = c.max →
        Chunker.adaptToContext c ctx = c) ∧
      (Chunker.adaptToContext c ctx).target ≤ c.target ∧
      (Chunker.adaptToContext c ctx).min ≤ c.min ∧
      (Chunker.adaptToContext c ctx).max ≤ c.max := by
  intro c ctx
  obtain ⟨t, mn, mx, ov⟩ := c
  simp only [Chunker.adaptToContext]
  have havail : (if ctx - 2000 < 400 then 400 else ctx - 2000) = max (ctx - 2000) 400 := by
    split_ifs with h <;> omega
  rw [havail]
  have ht : (if max (ctx - 2000) 400 * 6 / 10 > t then t else max (ctx - 2000) 400 * 6 / 10) =
      min (max (ctx - 2000) 400 * 6 / 10) t := by split_ifs with h <;> omega
  rw [ht]
  have hm : (if max (ctx - 2000) 400 * 8 / 10 > mx then mx else max (ctx - 2000) 400 * 8 / 10) =
      min (max (ctx - 2000) 400 * 8 / 10) mx := by split_ifs with h <;> omega
  rw [hm]
  have hn : (if min (max (ctx - 2000) 400 * 6 / 10) t * 2 / 3 > mn then mn
        else min (max (ctx - 2000) 400 * 6 / 10) t * 2 / 3) =
      min (min (max (ctx - 2000) 400 * 6 / 10) t * 2 / 3) mn := by
    split_ifs with h <;> omega
  rw [hn]
  split_ifs with hne
  · refine ⟨fun _ => rfl, fun heq => absurd heq hne, ?_, ?_, ?_⟩ <;> simp
  · push_neg at hne
    refine ⟨fun hneq => absurd hne hneq, fun _ => rfl, ?_, ?_, ?_⟩ <;> simp

/-- Claim C4 witness: the amended theorem applied at a configuration that
is tightened (context 3000, max 1024) and one that is left unchanged
(context 3000, max 800). -/
theorem claim_C4_witness :
    Chunker.adaptToContext ⟨512, 50, 1024, 50⟩ 3000 = ⟨512, 50, 800, 50⟩ ∧
    Chunker.adaptToContext ⟨1000, 50, 800, 50⟩ 3000 = ⟨1000, 50, 800, 50⟩ := by
  constructor
  · have h := (claim_C4_amended ⟨512, 50, 1024, 50⟩ 3000).1 (by decide)
    simpa using h
  · exact (claim_C4_amended ⟨1000, 50, 800, 50⟩ 3000).2.1 (by decide)

/-- Claim C3 counterexample: the claim says a response that fails to parse
as JSON is retried up to three times with backoff; in the code a parse
failure returns nil immediately — with a parser that rejects the (always
returned) response, `AnnotateChunk` makes exactly one LLM call and never
sleeps. -/
theorem claim_C3_cex :
    Annotator.annotateChunkModel (fun _ => none)
      (fun _ => Annotator.LLMReply.ok "this is not json") 3 = (none, 1, []) := by
  rfl

/-- Claim C3 (amended): `AnnotateChunk` retries only transport/LLM-call
failures, up to `maxRetries` attempts with a backoff of `5·(attempt
number)` seconds after each failed attempt; a response that fails to
parse as JSON aborts immediately (no retry, no backoff) with no
annotation; a parsed response ends the loop, yielding no annotation iff
its summary and topics are both empty. -/
theorem claim_C3_amended :
    ∀ (parse : String → Option Annotator.AnnParsed)
      (oracle : Nat → Annotator.LLMReply) (maxRetries : Nat),
      ((∀ i, i < maxRetries → oracle i = Annotator.LLMReply.fail) →
        Annotator.annotateChunkModel parse oracle maxRetries =
          (none, maxRetries, (List.range maxRetries).map (fun i => 5 * (i + 1)))) ∧
      (∀ j resp, j < maxRetries →
        (∀ i, i < j → oracle i = Annotator.LLMReply.fail) →
        oracle j = Annotator.LLMReply.ok resp →
        (parse resp = none →
          Annotator.annotateChunkModel parse oracle maxRetries =
            (none, j + 1, (List.range j).map (fun i => 5 * (i + 1)))) ∧
        (∀ p, parse resp = some p →
          Annotator.annotateChunkModel parse oracle maxRetries =
            ((if p.summary = "" ∧ p.topics = [] then none else some p), j + 1,
              (List.range j).map (fun i => 5 * (i + 1))))) := by
  intro parse oracle maxRetries
  constructor
  · intro hfail
    have h := annLoop_all_fail parse oracle maxRetries 0
      (fun t ht => by simpa using hfail t ht)
    simp only [Annotator.annotateChunkModel, h]
    simp
  · intro j resp hj hfail hok
    have h := annLoop_first_ok parse oracle j maxRetries 0 resp hj
      (fun t ht => by simpa using hfail t ht) (by simpa using hok)
    constructor
    · intro hp
      rw [hp] at h
      simp only [Annotator.annotateChunkModel, h]
      simp
    · intro p hp
      rw [hp] at h
      simp only [Annotator.annotateChunkModel, h]
      simp

/-- Claim C3 witness: the amended theorem applied to an oracle that fails
on the first two attempts and returns a parseable annotation on the
third. -/
theorem claim_C3_witness :
    Annotator.annotateChunkModel (fun _ => some ⟨"s", ["t"]⟩)
      (fun i => if i < 2 then Annotator.LLMReply.fail
        else Annotator.LLMReply.ok "good") 3 =
      (some ⟨"s", ["t"]⟩, 3, [5, 10]) := by
  have h := ((claim_C3_amended (fun _ => some ⟨"s", ["t"]⟩)
    (fun i => if i < 2 then Annotator.LLMReply.fail
      else Annotator.LLMReply.ok "good") 3).2 2 "good" (by omega)
    (fun i hi => by simp [hi]) (by simp)).2 ⟨"s", ["t"]⟩ rfl
  simpa using h

/-- Claim C9: `InsertAnnotation` keeps the at-most-one-current invariant
in every observable state: in one transaction all prior current rows for
the chunk are flipped to non-current and the new row is inserted; a
failed insert leaves the table unchanged; prior rows are preserved (same
id, chunk and model), and a successful insert of a current row leaves
exactly one current row for that chunk. -/
theorem claim_C9 :
    ∀ (rows : List AnnStore.AnnRow) (ann : AnnStore.AnnRow) (ioFail : Bool),
      (∀ c, AnnStore.countCurrent rows c ≤ 1) →
      (∀ c, AnnStore.countCurrent (AnnStore.insertAnnRow rows ann ioFail).1 c ≤ 1) ∧
      ((AnnStore.insertAnnRow rows ann ioFail).2 = true →
        (AnnStore.insertAnnRow rows ann ioFail).1 = rows) ∧
      ((AnnStore.insertAnnRow rows ann ioFail).2 = false →
        (AnnStore.insertAnnRow rows ann ioFail).1.length = rows.length + 1 ∧
        (∀ r ∈ rows, ∃ r' ∈ (AnnStore.insertAnnRow rows ann ioFail).1,
          r'.id = r.id ∧ r'.chunkID = r.chunkID ∧ r'.modelID = r.modelID) ∧
        (ann.isCurrent = true →
          AnnStore.countCurrent (AnnStore.insertAnnRow rows ann ioFail).1 ann.chunkID = 1 ∧
          ann ∈ (AnnStore.insertAnnRow rows ann ioFail).1)) := by
  intro rows ann ioFail hinv
  unfold AnnStore.insertAnnRow
  split_ifs with hfail
  · exact ⟨hinv, fun _ => rfl, fun h => by simp at h⟩
  · refine ⟨?_, fun h => by simp at h, fun _ => ⟨?_, ?_, fun hcur => ⟨?_, ?_⟩⟩⟩
    · intro c
      rw [countCurrent_append]
      by_cases hc : c = ann.chunkID
      · subst hc
        rw [countCurrent_markNonCurrent_self, countCurrent_singleton]
        split_ifs <;> simp
      · rw [countCurrent_markNonCurrent_ne rows hc, countCurrent_singleton]
        have hne : ¬ (ann.chunkID = c ∧ ann.isCurrent = true) := fun h => hc (h.1.symm)
        rw [if_neg hne]
        have := hinv c
        omega
    · simp [AnnStore.markNonCurrent]
    · intro r hr
      refine ⟨if r.chunkID = ann.chunkID && r.isCurrent then { r with isCurrent := false } else r,
        List.mem_append.mpr (Or.inl (List.mem_map.mpr ⟨r, hr, rfl⟩)), ?_⟩
      split_ifs <;> simp
    · rw [countCurrent_append, countCurrent_markNonCurrent_self, countCurrent_singleton]
      simp [hcur]
    · simp

/-- Claim C9 witness: the theorem applied to a two-row table holding one
current annotation for the chunk, inserting a newer current one. -/
theorem claim_C9_witness :
    AnnStore.countCurrent
      (AnnStore.insertAnnRow [⟨"a1", "c1", "m1", true⟩] ⟨"a2", "c1", "m2", true⟩ false).1
      "c1" = 1 ∧
    (AnnStore.insertAnnRow [⟨"a1", "c1", "m1", true⟩] ⟨"a2", "c1", "m2", true⟩ false).1.length
      = 2 := by
  have h := claim_C9 [⟨"a1", "c1", "m1", true⟩] ⟨"a2", "c1", "m2", true⟩ false
    (fun c => by rw [countCurrent_singleton]; split_ifs <;> simp)
  refine ⟨(h.2.2 (by decide)).2.2 rfl |>.1, (h.2.2 (by decide)).1⟩

/-- Claim C2 counterexample: the claim requires promotion on every run,
including runs in which the set of chunks without embeddings selected at
the start of the stage is empty.  In a state with one chunked asset whose
single chunk already carries an embedding reference, that selection is
empty, the stage does nothing, and the asset stays at status chunked even
though every one of its chunks is embedded. -/
theorem claim_C2_cex :
    (Pipeline.embedStage
      ⟨[⟨"a", Pipeline.AssetStatus.chunked⟩], [⟨"c", "a", some "c"⟩]⟩ []).assets =
      [⟨"a", Pipeline.AssetStatus.chunked⟩] ∧
    Pipeline.allChunksEmbedded
      (Pipeline.embedStage
        ⟨[⟨"a", Pipeline.AssetStatus.chunked⟩], [⟨"c", "a", some "c"⟩]⟩ []).chunks
      "a" = true := by
  constructor
  · rfl
  · rfl

/-- Claim C2 (amended): when the selected set of chunks without
embeddings is empty, the embed stage changes nothing.  When it is
non-empty, the stage maps each asset in place (same id), an asset with
status chunked ends with status embedded iff all its chunks then carry an
embedding reference, and every other asset is left unchanged. -/
theorem claim_C2_amended :
    ∀ (st : Pipeline.PipeState) (embeddedIDs : List String),
      ((st.chunks.filter (fun c => c.embeddingID.isNone)).isEmpty = true →
        Pipeline.embedStage st embeddedIDs = st) ∧
      ((st.chunks.filter (fun c => c.embeddingID.isNone)).isEmpty = false →
        List.Forall₂ (fun a a' =>
          a'.id = a.id ∧
          (a.status = Pipeline.AssetStatus.chunked →
            (a'.status = Pipeline.AssetStatus.embedded ↔
              Pipeline.allChunksEmbedded
                (Pipeline.embedStage st embeddedIDs).chunks a.id = true)) ∧
          (a.status ≠ Pipeline.AssetStatus.chunked → a' = a))
        st.assets (Pipeline.embedStage st embeddedIDs).assets) := by
  intro st embeddedIDs
  constructor
  · intro hempty
    simp [Pipeline.embedStage, hempty]
  · intro hne
    have hst : Pipeline.embedStage st embeddedIDs =
        { assets := st.assets.map (fun a =>
            if a.status = Pipeline.AssetStatus.chunked &&
                Pipeline.allChunksEmbedded
                  (st.chunks.map (fun c =>
                    if embeddedIDs.contains c.id then { c with embeddingID := some c.id }
                    else c)) a.id then
              { a with status := Pipeline.AssetStatus.embedded }
            else a),
          chunks := st.chunks.map (fun c =>
            if embeddedIDs.contains c.id then { c with embeddingID := some c.id }
            else c) } := by
      simp [Pipeline.embedStage, hne]
    rw [hst]
    rw [List.forall₂_map_right_iff]
    rw [List.forall₂_same]
    intro a _
    set chunks' := st.chunks.map (fun c =>
      if embeddedIDs.contains c.id then { c with embeddingID := some c.id } else c) with hchunks
    by_cases hc : a.status = Pipeline.AssetStatus.chunked
    · by_cases he : Pipeline.allChunksEmbedded chunks' a.id = true
      · rw [if_pos (by simp [hc, he])]
        refine ⟨rfl, fun _ => ?_, fun hnc => absurd hc hnc⟩
        simp [he]
      · rw [if_neg (by simp [hc, he])]
        refine ⟨rfl, fun _ => ?_, fun hnc => absurd hc hnc⟩
        constructor
        · intro hemb
          exact absurd (hc.symm.trans hemb) (by decide)
        · intro hall
          exact absurd hall he
    · rw [if_neg (by simp [hc])]
      exact ⟨rfl, fun h => absurd h hc, fun _ => rfl⟩

/-- Claim C2 witness: the amended theorem applied to a state with no
unembedded chunks (nothing changes) and to a state with one unembedded
chunk that the embedder embeds. -/
theorem claim_C2_witness :
    Pipeline.embedStage ⟨[⟨"a", Pipeline.AssetStatus.chunked⟩], []⟩ [] =
      ⟨[⟨"a", Pipeline.AssetStatus.chunked⟩], []⟩ ∧
    List.Forall₂ (fun a a' =>
      a'.id = a.id ∧
      (a.status = Pipeline.AssetStatus.chunked →
        (a'.status = Pipeline.AssetStatus.embedded ↔
          Pipeline.allChunksEmbedded
            (Pipeline.embedStage ⟨[⟨"a", Pipeline.AssetStatus.chunked⟩],
              [⟨"c", "a", none⟩]⟩ ["c"]).chunks a.id = true)) ∧
      (a.status ≠ Pipeline.AssetStatus.chunked → a' = a))
      [⟨"a", Pipeline.AssetStatus.chunked⟩]
      (Pipeline.embedStage ⟨[⟨"a", Pipeline.AssetStatus.chunked⟩],
        [⟨"c", "a", none⟩]⟩ ["c"]).assets := by
  exact ⟨(claim_C2_amended ⟨[⟨"a", Pipeline.AssetStatus.chunked⟩], []⟩ []).1 rfl,
    (claim_C2_amended ⟨[⟨"a", Pipeline.AssetStatus.chunked⟩],
      [⟨"c", "a", none⟩]⟩ ["c"]).2 rfl⟩

/-- Claim C8: `Search` returns exactly `min limit (cache size)` results;
their scores are the distances `1 − cosine` between the normalized query
and the cached pre-normalized vectors; the scores are listed in
non-decreasing order; and against an empty cache the result is the empty
list, not an error. -/
theorem claim_C8 :
    ∀ (cache : List VectorStore.CachedVec) (q : List ℚ) (limit : Nat),
      (VectorStore.Search cache q limit).length = min limit cache.length ∧
      List.Pairwise (fun a b => a.distance ≤ b.distance)
        (VectorStore.Search cache q limit) ∧
      (∀ res ∈ VectorStore.Search cache q limit, ∃ cv ∈ cache,
        res.record = cv.record ∧
        res.distance = 1 - VectorStore.dotQ (VectorStore.normalizeQ q) cv.vector) ∧
      (cache = [] → VectorStore.Search cache q limit = []) := by
  intro cache q limit
  refine ⟨?_, ?_, ?_, ?_⟩
  · simp only [VectorStore.Search, List.length_map, List.length_take,
      length_sortByKey]
    split_ifs with h <;> omega
  · simp only [VectorStore.Search]
    exact List.Pairwise.map _ (fun a b hab => hab)
      ((pairwise_sortByKey _).sublist (List.take_sublist _ _))
  · intro res hres
    simp only [VectorStore.Search, List.mem_map] at hres
    obtain ⟨p, hp, hres⟩ := hres
    have hp' := mem_sortByKey (List.mem_of_mem_take hp)
    obtain ⟨cv, hcv, hpcv⟩ := List.mem_map.mp hp'
    refine ⟨cv, hcv, ?_, ?_⟩
    · rw [← hres, ← hpcv]
    · rw [← hres, ← hpcv]
  · intro hcache
    subst hcache
    simp [VectorStore.Search, VectorStore.sortByKey]

/-- Claim C8 witness: the theorem applied to an empty cache and to a
two-entry cache queried with limit 1. -/
theorem claim_C8_witness :
    VectorStore.Search [] [1] 5 = [] ∧
    (VectorStore.Search
      [⟨"c0", [1, 0], ⟨"c0", [1, 0], "t0", "a", "/a", "", "", "text", "v"⟩⟩,
       ⟨"c1", [0, 1], ⟨"c1", [0, 1], "t1", "a", "/a", "", "", "text", "v"⟩⟩]
      [3, 4] 1).length = 1 := by
  constructor
  · exact (claim_C8 [] [1] 5).2.2.2 rfl
  · have h := (claim_C8
      [⟨"c0", [1, 0], ⟨"c0", [1, 0], "t0", "a", "/a", "", "", "text", "v"⟩⟩,
       ⟨"c1", [0, 1], ⟨"c1", [0, 1], "t1", "a", "/a", "", "", "text", "v"⟩⟩]
      [3, 4] 1).1
    simpa using h

/-- Claim C1 counterexample: the claim says a failed `AddVectors` leaves
the cache unchanged and every cached entry backed by a persisted row.  On
an empty store, adding a two-record batch whose second `Exec` fails rolls
the rows back but leaves the first record's entry in the cache: the error
is reported, the cache is non-empty, and the invariant is broken. -/
theorem claim_C1_cex :
    (VectorStore.AddVectors ⟨[], []⟩
      [⟨"v1", [1], "t1", "a1", "/a", "", "", "text", "v"⟩,
       ⟨"v2", [1], "t2", "a1", "/a", "", "", "text", "v"⟩] (some 1) false).2 = true ∧
    (VectorStore.AddVectors ⟨[], []⟩
      [⟨"v1", [1], "t1", "a1", "/a", "", "", "text", "v"⟩,
       ⟨"v2", [1], "t2", "a1", "/a", "", "", "text", "v"⟩] (some 1) false).1.cache ≠ [] ∧
    ¬ VectorStore.cacheBacked (VectorStore.AddVectors ⟨[], []⟩
      [⟨"v1", [1], "t1", "a1", "/a", "", "", "text", "v"⟩,
       ⟨"v2", [1], "t2", "a1", "/a", "", "", "text", "v"⟩] (some 1) false).1 := by
  refine ⟨by decide, by decide, by decide⟩

/-- `AddVectors` written with explicit conditionals over the loop's
result, for reasoning. -/
theorem AddVectors_eq (st : VectorStore.VSState)
    (records : List VectorStore.VectorRecord) (failIdx : Option Nat)
    (commitFails : Bool) :
    VectorStore.AddVectors st records failIdx commitFails =
      (if (VectorStore.addVectorsAux failIdx records 0 st.rows st.cache).2.2 = true then
        ({ rows := st.rows,
           cache := (VectorStore.addVectorsAux failIdx records 0 st.rows st.cache).2.1 }, true)
       else if commitFails = true then
        ({ rows := st.rows,
           cache := (VectorStore.addVectorsAux failIdx records 0 st.rows st.cache).2.1 }, true)
       else
        ({ rows := (VectorStore.addVectorsAux failIdx records 0 st.rows st.cache).1,
           cache := (VectorStore.addVectorsAux failIdx records 0 st.rows st.cache).2.1 },
          false)) := by
  unfold VectorStore.AddVectors
  obtain ⟨txR, cacheR, err⟩ := VectorStore.addVectorsAux failIdx records 0 st.rows st.cache
  cases err with
  | true => rfl
  | false =>
    by_cases hcf : commitFails = true <;> simp [hcf]

/-- Claim C1 (amended): the cache-row consistency invariant (every cached
entry has a persisted row with its id and asset) is preserved by
`LoadAll` (success or failure), by `DeleteByAsset` (success or failure),
and by a successful `AddVectors` (given that batch records agree on the
owning asset with any row or record sharing their id).  A failed
`AddVectors`, however, reverts the rows while the cache keeps the
normalized entries of the prefix of the batch processed before the
failure — it is not left unchanged. -/
theorem claim_C1_amended :
    ∀ (st : VectorStore.VSState) (records : List VectorStore.VectorRecord)
      (failIdx : Option Nat) (commitFails : Bool),
      VectorStore.cacheBacked st →
      (∀ fi, VectorStore.cacheBacked (VectorStore.LoadAll st fi).1) ∧
      (∀ aid b, VectorStore.cacheBacked (VectorStore.DeleteByAsset st aid b).1) ∧
      ((∀ r ∈ records, ∀ x ∈ st.rows, x.id = r.id → x.assetID = r.assetID) →
        (∀ r ∈ records, ∀ x ∈ records, x.id = r.id → x.assetID = r.assetID) →
        (VectorStore.AddVectors st records failIdx commitFails).2 = false →
        VectorStore.cacheBacked (VectorStore.AddVectors st records failIdx commitFails).1) ∧
      ((VectorStore.AddVectors st records failIdx commitFails).2 = true →
        (VectorStore.AddVectors st records failIdx commitFails).1.rows = st.rows ∧
        ∃ k ≤ records.length,
          (VectorStore.AddVectors st records failIdx commitFails).1.cache =
            st.cache ++ (records.take k).map VectorStore.mkCached) := by
  intro st records failIdx commitFails hbacked
  refine ⟨?_, ?_, ?_, ?_⟩
  · intro fi
    cases fi with
    | none =>
      intro cv hcv
      obtain ⟨r, hr, rfl⟩ := List.mem_map.mp hcv
      exact ⟨r, hr, rfl, rfl⟩
    | some i =>
      show VectorStore.cacheBacked (if i < st.rows.length then (st, true)
        else ({ rows := st.rows, cache := st.rows.map VectorStore.mkCached }, false)).1
      split_ifs with h
      · exact hbacked
      · intro cv hcv
        obtain ⟨r, hr, rfl⟩ := List.mem_map.mp hcv
        exact ⟨r, hr, rfl, rfl⟩
  · intro aid b
    unfold VectorStore.DeleteByAsset
    split_ifs with h
    · exact hbacked
    · intro cv hcv
      obtain ⟨hcv', hpred⟩ := List.mem_filter.mp hcv
      obtain ⟨r, hr, hid, hasset⟩ := hbacked cv hcv'
      refine ⟨r, List.mem_filter.mpr ⟨hr, ?_⟩, hid, hasset⟩
      simpa [hasset] using hpred
  · intro hagree hagree2 hok
    rw [AddVectors_eq] at hok ⊢
    split_ifs at hok ⊢ with herr hcf
    have hba := addVectorsAux_ok_backed failIdx records 0 st.rows st.cache
      hbacked hagree hagree2 (by simpa using herr)
    exact hba
  · intro herr
    obtain ⟨k, hk, hshape⟩ := addVectorsAux_cache_shape failIdx records 0 st.rows st.cache
    rw [AddVectors_eq] at herr ⊢
    split_ifs at herr ⊢ with h1 h2
    · exact ⟨rfl, k, hk, hshape⟩
    · exact ⟨rfl, k, hk, hshape⟩

/-- Claim C1 witness: the amended theorem applied to a successful
single-record `AddVectors` on an empty store, and the failure shape of
the two-record batch failing at its second record. -/
theorem claim_C1_witness :
    VectorStore.cacheBacked (VectorStore.AddVectors ⟨[], []⟩
      [⟨"v1", [1], "t1", "a1", "/a", "", "", "text", "v"⟩] none false).1 ∧
    (VectorStore.AddVectors ⟨[], []⟩
      [⟨"v1", [1], "t1", "a1", "/a", "", "", "text", "v"⟩,
       ⟨"v2", [1], "t2", "a1", "/a", "", "", "text", "v"⟩] (some 1) false).1.rows = [] := by
  constructor
  · exact (claim_C1_amended ⟨[], []⟩
      [⟨"v1", [1], "t1", "a1", "/a", "", "", "text", "v"⟩] none false
      (by intro cv hcv; simp at hcv)).2.2.1
      (by intro r hr x hx; simp at hx)
      (by intro r hr x hx hid
          simp only [List.mem_singleton] at hr hx
          subst hr; subst hx; rfl)
      (by decide)
  · exact ((claim_C1_amended ⟨[], []⟩
      [⟨"v1", [1], "t1", "a1", "/a", "", "", "text", "v"⟩,
       ⟨"v2", [1], "t2", "a1", "/a", "", "", "text", "v"⟩] (some 1) false
      (by intro cv hcv; simp at hcv)).2.2.2 (by decide)).1

section ConceptLemmas

open Conceptualizer

theorem clusterOut_isSome (labeler : List String → List Nat → String × String)
    (level : Nat) (version : String) (ids texts : List String)
    (vectors : List (List ℚ)) (labels : List Nat)
    (centroids : List (List ℚ)) (ci : Nat) :
    (clusterOut labeler level version ids texts vectors labels centroids ci).isSome =
      !(MathUtil.membersOf labels ci ids).isEmpty := by
  unfold clusterOut
  by_cases h : MathUtil.membersOf labels ci ids = []
  · simp [h]
  · have hlen : (MathUtil.membersOf labels ci ids).length ≠ 0 := by
      simpa [List.length_eq_zero] using h
    simp [hlen]
    exact h

theorem buildConcepts_eq (labeler : List String → List Nat → String × String)
    (oracle : MathUtil.RandStream) (cache : List VectorStore.CachedVec)
    (level : Nat) (kOverride : Option Nat) (version : String)
    (h : cache ≠ []) :
    Conceptualizer.buildConcepts labeler oracle cache level kOverride version =
      (((List.range (effectiveK (cacheIds cache).length kOverride)).filterMap
          (clusterOut labeler level version (cacheIds cache) (cacheTexts cache)
            (cacheVectors cache) (clusterLabels oracle cache kOverride)
            (MathUtil.kmeans oracle (cacheVectors cache)
              (effectiveK (cacheIds cache).length kOverride) 50).2)).map (fun p => p.1),
        ((((List.range (effectiveK (cacheIds cache).length kOverride)).filterMap
          (clusterOut labeler level version (cacheIds cache) (cacheTexts cache)
            (cacheVectors cache) (clusterLabels oracle cache kOverride)
            (MathUtil.kmeans oracle (cacheVectors cache)
              (effectiveK (cacheIds cache).length kOverride) 50).2)).map
          (fun p => p.2)).flatten)) := by
  have hlen : ¬ (cacheIds cache).length = 0 := by
    simp [cacheIds]
    exact h
  unfold Conceptualizer.buildConcepts clusterLabels
  rw [if_neg hlen]

theorem perCluster_length (labeler : List String → List Nat → String × String)
    (level : Nat) (version : String) (ids texts : List String)
    (vectors : List (List ℚ)) (labels : List Nat)
    (centroids : List (List ℚ)) (k : Nat) :
    (((List.range k).filterMap
      (clusterOut labeler level version ids texts vectors labels centroids)).map
        (fun p => p.1)).length =
      ((List.range k).filter
        (fun ci => !(MathUtil.membersOf labels ci ids).isEmpty)).length := by
  rw [List.length_map]
  exact length_filterMap_eq_length_filter _ _ _
    (fun ci _ => clusterOut_isSome labeler level version ids texts vectors labels centroids ci)

theorem perCluster_exists (labeler : List String → List Nat → String × String)
    (level : Nat) (version : String) (ids texts : List String)
    (vectors : List (List ℚ)) (labels : List Nat)
    (centroids : List (List ℚ)) (k : Nat) (ci : Nat) (hci : ci < k)
    (hmem : MathUtil.membersOf labels ci ids ≠ []) :
    ∃ node ∈ ((List.range k).filterMap
      (clusterOut labeler level version ids texts vectors labels centroids)).map
        (fun p => p.1),
      node.id = conceptIdOf level ci version ∧
      node.level = level ∧
      ∀ m ∈ MathUtil.membersOf labels ci ids,
        (⟨memberEdgeIdOf (conceptIdOf level ci version) m,
          conceptIdOf level ci version, m, "concept_member", 1, version⟩ : GraphEdge) ∈
          (((List.range k).filterMap
            (clusterOut labeler level version ids texts vectors labels centroids)).map
              (fun p => p.2)).flatten := by
  have hlen : ¬ (MathUtil.membersOf labels ci ids).length = 0 := by
    simpa [List.length_eq_zero] using hmem
  have hout : clusterOut labeler level version ids texts vectors labels centroids ci =
      some (mkNodeOf labeler level version ids texts vectors labels centroids ci,
        mkEdgesOf level version ids labels ci) := by
    unfold clusterOut
    rw [if_neg hlen]
  refine ⟨mkNodeOf labeler level version ids texts vectors labels centroids ci,
    ?_, rfl, rfl, ?_⟩
  · exact List.mem_map.mpr
      ⟨(mkNodeOf labeler level version ids texts vectors labels centroids ci,
        mkEdgesOf level version ids labels ci),
       List.mem_filterMap.mpr ⟨ci, List.mem_range.mpr hci, hout⟩, rfl⟩
  · intro m hm
    refine List.mem_flatten.mpr ⟨mkEdgesOf level version ids labels ci, ?_, ?_⟩
    · exact List.mem_map.mpr
        ⟨(mkNodeOf labeler level version ids texts vectors labels centroids ci,
          mkEdgesOf level version ids labels ci),
         List.mem_filterMap.mpr ⟨ci, List.mem_range.mpr hci, hout⟩, rfl⟩
    · exact List.mem_map.mpr ⟨m, hm, rfl⟩

theorem perCluster_sound (labeler : List String → List Nat → String × String)
    (level : Nat) (version : String) (ids texts : List String)
    (vectors : List (List ℚ)) (labels : List Nat)
    (centroids : List (List ℚ)) (k : Nat) (node : ConceptNode)
    (hnode : node ∈ ((List.range k).filterMap
      (clusterOut labeler level version ids texts vectors labels centroids)).map
        (fun p => p.1)) :
    ∃ ci, ci < k ∧ MathUtil.membersOf labels ci ids ≠ [] ∧
      node.id = conceptIdOf level ci version := by
  obtain ⟨p, hp, hpn⟩ := List.mem_map.mp hnode
  obtain ⟨ci, hcir, heval⟩ := List.mem_filterMap.mp hp
  unfold clusterOut at heval
  split_ifs at heval with hz
  injection heval with hinj
  refine ⟨ci, List.mem_range.mp hcir, by simpa [List.length_eq_zero] using hz, ?_⟩
  rw [← hpn, ← hinj]
  rfl

end ConceptLemmas

set_option maxRecDepth 100000 in
set_option maxHeartbeats 1000000 in
/-- Claim C6 counterexample: with a cache of three identical vectors the
effective cluster count is 2, yet k-means (for any random draws all
centroids coincide, so every vector lands in cluster 0) leaves cluster 1
empty and `BuildConcepts` persists only one concept node, not one per
cluster. -/
theorem claim_C6_cex :
    Conceptualizer.effectiveK 3 none = 2 ∧
    (Conceptualizer.buildConcepts (fun _ _ => ("L", "D")) ⟨fun _ => 0, fun _ => 0⟩
      [⟨"c0", [1, 0], ⟨"c0", [1, 0], "t0", "a", "/a", "", "", "text", "v"⟩⟩,
       ⟨"c1", [1, 0], ⟨"c1", [1, 0], "t1", "a", "/a", "", "", "text", "v"⟩⟩,
       ⟨"c2", [1, 0], ⟨"c2", [1, 0], "t2", "a", "/a", "", "", "text", "v"⟩⟩]
      0 none "v").1.length = 1 := by
  constructor
  · rfl
  · with_unfolding_all rfl

/-- Claim C6 (amended): on a non-empty cache, `BuildConcepts` persists
exactly one concept node per cluster **with at least one member** —
clusters to which k-means assigned no members are skipped.  Each persisted
node carries the deterministic ID
`SHA-256("concept:" level ":" cluster_idx ":" pipeline_version)[:32]` of a
non-empty cluster, and for each member chunk of its cluster one
`concept_member` edge from the node to that chunk is persisted. -/
theorem claim_C6_amended :
    ∀ (labeler : List String → List Nat → String × String)
      (oracle : MathUtil.RandStream) (cache : List VectorStore.CachedVec)
      (level : Nat) (kOverride : Option Nat) (version : String),
      cache ≠ [] →
      ((Conceptualizer.buildConcepts labeler oracle cache level kOverride version).1.length =
        ((List.range (Conceptualizer.effectiveK (Conceptualizer.cacheIds cache).length
            kOverride)).filter (fun ci =>
          !(MathUtil.membersOf (Conceptualizer.clusterLabels oracle cache kOverride) ci
            (Conceptualizer.cacheIds cache)).isEmpty)).length) ∧
      (∀ ci, ci < Conceptualizer.effectiveK (Conceptualizer.cacheIds cache).length kOverride →
        MathUtil.membersOf (Conceptualizer.clusterLabels oracle cache kOverride) ci
          (Conceptualizer.cacheIds cache) ≠ [] →
        ∃ node ∈ (Conceptualizer.buildConcepts labeler oracle cache level kOverride version).1,
          node.id = Conceptualizer.conceptIdOf level ci version ∧
          node.level = level ∧
          ∀ m ∈ MathUtil.membersOf (Conceptualizer.clusterLabels oracle cache kOverride) ci
              (Conceptualizer.cacheIds cache),
            (⟨Conceptualizer.memberEdgeIdOf (Conceptualizer.conceptIdOf level ci version) m,
              Conceptualizer.conceptIdOf level ci version, m, "concept_member", 1, version⟩ :
              Conceptualizer.GraphEdge) ∈
              (Conceptualizer.buildConcepts labeler oracle cache level kOverride version).2) ∧
      (∀ node ∈ (Conceptualizer.buildConcepts labeler oracle cache level kOverride version).1,
        ∃ ci, ci < Conceptualizer.effectiveK (Conceptualizer.cacheIds cache).length kOverride ∧
          MathUtil.membersOf (Conceptualizer.clusterLabels oracle cache kOverride) ci
            (Conceptualizer.cacheIds cache) ≠ [] ∧
          node.id = Conceptualizer.conceptIdOf level ci version) := by
  intro labeler oracle cache level kOverride version hne
  rw [buildConcepts_eq labeler oracle cache level kOverride version hne]
  exact ⟨perCluster_length labeler level version _ _ _ _ _ _,
    fun ci hci hmem => perCluster_exists labeler level version _ _ _ _ _ _ ci hci hmem,
    fun node hnode => perCluster_sound labeler level version _ _ _ _ _ _ node hnode⟩

set_option maxRecDepth 100000 in
set_option maxHeartbeats 1000000 in
/-- Claim C6 witness: the amended theorem applied to a singleton cache,
where k is capped at n = 1, the single cluster holds the single chunk,
and exactly one node with the deterministic ID for cluster 0 exists. -/
theorem claim_C6_witness :
    (Conceptualizer.buildConcepts (fun _ _ => ("L", "D")) ⟨fun _ => 0, fun _ => 0⟩
      [⟨"c0", [1, 0], ⟨"c0", [1, 0], "t0", "a", "/a", "", "", "text", "v"⟩⟩]
      0 none "v").1.length = 1 ∧
    (∃ node ∈ (Conceptualizer.buildConcepts (fun _ _ => ("L", "D")) ⟨fun _ => 0, fun _ => 0⟩
      [⟨"c0", [1, 0], ⟨"c0", [1, 0], "t0", "a", "/a", "", "", "text", "v"⟩⟩]
      0 none "v").1, node.id = Conceptualizer.conceptIdOf 0 0 "v" ∧ node.level = 0 ∧
      ∀ m ∈ MathUtil.membersOf (Conceptualizer.clusterLabels ⟨fun _ => 0, fun _ => 0⟩
          [⟨"c0", [1, 0], ⟨"c0", [1, 0], "t0", "a", "/a", "", "", "text", "v"⟩⟩] none) 0
          (Conceptualizer.cacheIds
            [⟨"c0", [1, 0], ⟨"c0", [1, 0], "t0", "a", "/a", "", "", "text", "v"⟩⟩]),
        (⟨Conceptualizer.memberEdgeIdOf (Conceptualizer.conceptIdOf 0 0 "v") m,
          Conceptualizer.conceptIdOf 0 0 "v", m, "concept_member", 1, "v"⟩ :
          Conceptualizer.GraphEdge) ∈
          (Conceptualizer.buildConcepts (fun _ _ => ("L", "D")) ⟨fun _ => 0, fun _ => 0⟩
            [⟨"c0", [1, 0], ⟨"c0", [1, 0], "t0", "a", "/a", "", "", "text", "v"⟩⟩]
            0 none "v").2) := by
  have h := claim_C6_amended (fun _ _ => ("L", "D")) ⟨fun _ => 0, fun _ => 0⟩
    [⟨"c0", [1, 0], ⟨"c0", [1, 0], "t0", "a", "/a", "", "", "text", "v"⟩⟩]
    0 none "v" (by decide)
  refine ⟨h.1.trans (by decide), h.2.1 0 (by decide) (by decide)⟩
